import Mathlib

/-!
Verification of the generalized-coordinate dynamics core
(`brax/v2/generalized/dynamics.py`).

Scalars are modelled as rationals.  The spatial-algebra value types
(`Transform`, `Motion`, `Force`, `Inertia`) and the tree-scan engine live in
`brax/v2/base.py`, `brax/v2/math.py` and `brax/v2/scan.py`, which are not part
of the sources under verification; those operations are modelled from the
specification (sections 4.1 and 4.2) and are marked `Modelled from the spec`
in their doc comments.  Everything in `dynamics.py` itself is translated
directly from the source.

The axis-angle-to-unit-quaternion construction (`math.quat_rot_axis` composed
with `math.normalize`) involves trigonometric functions and a square root; it
is kept abstract as an explicit function parameter `rfn` so that the whole
development stays executable over the rationals.  No claim depends on its
concrete values.
-/

/-- 3-vector of rationals. -/
structure V3 where
  x : ℚ
  y : ℚ
  z : ℚ
deriving DecidableEq

def V3.zero : V3 := ⟨0, 0, 0⟩

def V3.add (a b : V3) : V3 := ⟨a.x + b.x, a.y + b.y, a.z + b.z⟩

def V3.sub (a b : V3) : V3 := ⟨a.x - b.x, a.y - b.y, a.z - b.z⟩

def V3.neg (a : V3) : V3 := ⟨-a.x, -a.y, -a.z⟩

def V3.smul (c : ℚ) (a : V3) : V3 := ⟨c * a.x, c * a.y, c * a.z⟩

/-- Elementwise division of a vector by a scalar, as in `jp.sum(...) / jp.sum(mass)`. -/
def V3.div (a : V3) (c : ℚ) : V3 := ⟨a.x / c, a.y / c, a.z / c⟩

def V3.dot (a b : V3) : ℚ := a.x * b.x + a.y * b.y + a.z * b.z

def V3.cross (a b : V3) : V3 :=
  ⟨a.y * b.z - a.z * b.y, a.z * b.x - a.x * b.z, a.x * b.y - a.y * b.x⟩

/-- Sum of a rational-valued function over a list (used for the total mass). -/
def ratLsum (f : α → ℚ) (L : List α) : ℚ := L.foldr (fun a s => f a + s) 0

/-- Sum of a vector-valued function over a list. -/
def V3.lsum (f : α → V3) (L : List α) : V3 := L.foldr (fun a s => V3.add (f a) s) V3.zero

/-- Quaternion (w, x, y, z). -/
structure Quat where
  w : ℚ
  x : ℚ
  y : ℚ
  z : ℚ
deriving DecidableEq

/-- Identity quaternion. -/
def Quat.one : Quat := ⟨1, 0, 0, 0⟩

/-- Modelled from the spec: quaternion product (math.py is absent from src/;
spec 4.1 requires pose composition, realised by the standard Hamilton product). -/
def quatMul (a b : Quat) : Quat :=
  ⟨a.w * b.w - a.x * b.x - a.y * b.y - a.z * b.z,
   a.w * b.x + a.x * b.w + a.y * b.z - a.z * b.y,
   a.w * b.y - a.x * b.z + a.y * b.w + a.z * b.x,
   a.w * b.z + a.x * b.y - a.y * b.x + a.z * b.w⟩

/-- Modelled from the spec: quaternion inverse for unit quaternions is the
conjugate (math.py is absent from src/; spec 4.1 requires pose inversion). -/
def quatConj (a : Quat) : Quat := ⟨a.w, -a.x, -a.y, -a.z⟩

/-- Modelled from the spec: rotation of a vector by a unit quaternion
(math.rotate, absent from src/; spec 4.1 "pose application to a point/vector").
For a unit quaternion this polynomial form equals the sandwich product. -/
def rotate (v : V3) (q : Quat) : V3 :=
  let u : V3 := ⟨q.x, q.y, q.z⟩
  V3.add v (V3.smul 2 (V3.cross u (V3.add (V3.cross u v) (V3.smul q.w v))))

/-- Rigid pose: position and quaternion orientation, as in base.py. -/
structure Transform where
  pos : V3
  rot : Quat
deriving DecidableEq

/-- Modelled from the spec: `Transform.zero` (base.py, absent from src/) is the
zero/identity pose padding the root's absent parent: zero position, identity
rotation. -/
def Transform.zero : Transform := ⟨V3.zero, Quat.one⟩

/-- Modelled from the spec: pose composition `t.do(o)` (base.py, absent from
src/; spec 4.1 "pose compose"): apply the pose `t` to the pose `o`. -/
def Transform.do (t o : Transform) : Transform :=
  ⟨V3.add t.pos (rotate o.pos t.rot), quatMul t.rot o.rot⟩

/-- Modelled from the spec: pose inversion (base.py, absent from src/;
spec 4.1 "pose invert"). -/
def Transform.inv (t : Transform) : Transform :=
  ⟨V3.neg (rotate t.pos (quatConj t.rot)), quatConj t.rot⟩

/-- Spatial motion vector: angular and linear components, as in base.py. -/
structure Motion where
  ang : V3
  vel : V3
deriving DecidableEq

def Motion.zero : Motion := ⟨V3.zero, V3.zero⟩

def Motion.add (a b : Motion) : Motion := ⟨V3.add a.ang b.ang, V3.add a.vel b.vel⟩

/-- Scalar multiplication of a motion, `vmap(lambda x, y: x * y)(motion, scalar)`:
both components are scaled. -/
def Motion.smul (c : ℚ) (m : Motion) : Motion := ⟨V3.smul c m.ang, V3.smul c m.vel⟩

/-- Modelled from the spec: the six-dimensional rigid-body cross product of two
motions (base.py, absent from src/); spec 4.1 gives it exactly:
cross(a,b) = (omega_a x omega_b, omega_a x v_b + v_a x omega_b). -/
def Motion.cross (a b : Motion) : Motion :=
  ⟨V3.cross a.ang b.ang, V3.add (V3.cross a.ang b.vel) (V3.cross a.vel b.ang)⟩

/-- Spatial force vector, as in base.py. -/
structure Force where
  ang : V3
  vel : V3
deriving DecidableEq

def Force.zero : Force := ⟨V3.zero, V3.zero⟩

def Force.add (a b : Force) : Force := ⟨V3.add a.ang b.ang, V3.add a.vel b.vel⟩

/-- Modelled from the spec: the cross product of a motion with a force
(base.py, absent from src/), the dual of the motion-motion cross product; it is
the gyroscopic term of the Newton-Euler equation (spec 4.4 step 2). -/
def Motion.crossF (a : Motion) (f : Force) : Force :=
  ⟨V3.add (V3.cross a.ang f.ang) (V3.cross a.vel f.vel), V3.cross a.ang f.vel⟩

/-- Modelled from the spec: the spatial dot product of a motion subspace vector
with a force, producing a generalized (joint-space) force coordinate (base.py,
absent from src/; spec 4.4 step 4). -/
def Motion.dot (m : Motion) (f : Force) : ℚ :=
  V3.dot m.ang f.ang + V3.dot m.vel f.vel

/-- Sum of a motion-valued function over a list (the scatter-add `index_sum`
of spec 4.1, restricted to the contributions of one link). -/
def Motion.lsum (f : α → Motion) (L : List α) : Motion :=
  L.foldr (fun a s => Motion.add (f a) s) Motion.zero

/-- Sum of a force-valued function over a list (backward-scan accumulation of
children forces). -/
def Force.lsum (f : α → Force) (L : List α) : Force :=
  L.foldr (fun a s => Force.add (f a) s) Force.zero

/-- 3x3 matrix as three rows (the inertia tensor). -/
structure M3 where
  r0 : V3
  r1 : V3
  r2 : V3
deriving DecidableEq

def M3.mulVec (m : M3) (v : V3) : V3 := ⟨V3.dot m.r0 v, V3.dot m.r1 v, V3.dot m.r2 v⟩

/-- Rigid spatial inertia: frame offset, inertia tensor and mass, as in base.py. -/
structure Inertia where
  transform : Transform
  i : M3
  mass : ℚ
deriving DecidableEq

/-- Modelled from the spec: `Inertia.mul` (base.py, absent from src/) applies a
spatial inertia to a motion producing a spatial force - a linear map built from
the inertia tensor, the mass, and the frame offset (spec 4.1). -/
def Inertia.mul (it : Inertia) (m : Motion) : Force :=
  ⟨V3.add (M3.mulVec it.i m.ang) (V3.smul it.mass (V3.cross it.transform.pos m.vel)),
   V3.sub (V3.smul it.mass m.vel) (V3.smul it.mass (V3.cross it.transform.pos m.ang))⟩

/-- Modelled from the spec: applying a Transform to an Inertia (base.py, absent
from src/) translates the inertia's reference frame by the transform's position
and ignores its rotation ("translate, don't rotate", spec 4.3 step 2: the frame
stays aligned with the link's local axes). -/
def Transform.doInertia (t : Transform) (it : Inertia) : Inertia :=
  ⟨⟨V3.add t.pos it.transform.pos, it.transform.rot⟩, it.i, it.mass⟩

/-- Modelled from the spec: applying a Transform to a Motion (base.py, absent
from src/): rotate both components into the new orientation and shift the
reference point by the transform's position (spec 4.3 step 4, "pure geometric
re-referencing of a spatial vector, no value scaling"). -/
def Transform.doMotion (t : Transform) (m : Motion) : Motion :=
  ⟨rotate m.ang t.rot,
   V3.add (rotate m.vel t.rot) (V3.cross t.pos (rotate m.ang t.rot))⟩

/-- Joint-type tag of a link: FREE (6 dof) or STACKED(n) for n in {1,2,3}
(spec section 3; `sys.link_types` entries 'f' respectively '1'/'2'/'3'). -/
inductive LinkType where
  | free : LinkType
  | stacked (n : ℕ) : LinkType
deriving DecidableEq

/-- The mechanism description (the parts of a brax `System` read by
dynamics.py).  Links are indexed by `Fin nl`, generalized coordinates by
`Fin nd`; `dof_link` is the dof-to-link map `sys.dof_link()` and `dof_slot`
the position of a dof inside its joint's stack (the source lays dofs out
contiguously per link, so the slot is implicit there).  `parent_lt` is the
source invariant that parents precede children in index order, which makes
the tree-scan recursion well defined.  The free-joint quaternion coordinates
of `q` are never read by dynamics.py, so `q` is modelled with one coordinate
per dof. -/
structure System where
  nl : ℕ
  nd : ℕ
  link_types : Fin nl → LinkType
  link_parents : Fin nl → Option (Fin nl)
  parent_lt : ∀ l p, link_parents l = some p → (p : ℕ) < (l : ℕ)
  link_transform : Fin nl → Transform
  link_joint : Fin nl → Transform
  inertia : Fin nl → Inertia
  dof_link : Fin nd → Fin nl
  dof_slot : Fin nd → ℕ
  dof_motion : Fin nd → Motion
  stiffness : Fin nd → ℚ
  damping : Fin nd → ℚ
  gravity : V3

/-- dynamics.py line 45: `xi = x.vmap().do(sys.link.inertia.transform)` -
world pose of each link's inertial (center-of-mass) frame. -/
def xiOf (sys : System) (x : Fin sys.nl → Transform) (l : Fin sys.nl) : Transform :=
  Transform.do (x l) (sys.inertia l).transform

/-- dynamics.py line 47:
`com = jp.sum(jax.vmap(jp.multiply)(mass, xi.pos), axis=0) / jp.sum(mass)`. -/
def comOf (sys : System) (x : Fin sys.nl → Transform) : V3 :=
  V3.div
    (V3.lsum (fun l => V3.smul (sys.inertia l).mass (xiOf sys x l).pos)
      (List.finRange sys.nl))
    (ratLsum (fun l => (sys.inertia l).mass) (List.finRange sys.nl))

/-- dynamics.py line 48: `cinr = xi.replace(pos=xi.pos - com).vmap().do(sys.link.inertia)`. -/
def cinrOf (sys : System) (x : Fin sys.nl → Transform) (l : Fin sys.nl) : Inertia :=
  Transform.doInertia
    ⟨V3.sub (xiOf sys x l).pos (comOf sys x), (xiOf sys x l).rot⟩
    (sys.inertia l)

/-- dynamics.py lines 52-57: `pidx[i] = i if link_types[i] == 'f' else parents[i]`,
with the root's absent parent encoded by the out-of-range index `nl` (the
python uses -1, which indexes the zero pose appended to `x_pad`). -/
def pidxOf (sys : System) (l : Fin sys.nl) : ℕ :=
  match sys.link_types l with
  | LinkType.free => l.val
  | LinkType.stacked _ =>
    match sys.link_parents l with
    | some p => p.val
    | none => sys.nl

/-- dynamics.py line 51: `x_pad = x.concatenate(Transform.zero(shape=(1,)))` -
link poses padded with the zero/identity pose at the sentinel index. -/
def xpadOf (sys : System) (x : Fin sys.nl → Transform) (i : ℕ) : Transform :=
  if h : i < sys.nl then x ⟨i, h⟩ else Transform.zero

/-- dynamics.py line 58:
`j = x_pad.take(pidx).vmap().do(sys.link.transform).vmap().do(sys.link.joint)` -
the world pose of each link's joint frame. -/
def jOf (sys : System) (x : Fin sys.nl → Transform) (l : Fin sys.nl) : Transform :=
  Transform.do
    (Transform.do (xpadOf sys x (pidxOf sys l)) (sys.link_transform l))
    (sys.link_joint l)

/-- The dofs of the same joint with a strictly smaller slot than `d`, in stack
order (the source lays a joint's dofs out contiguously, so index order is slot
order). -/
def priorList (sys : System) (d : Fin sys.nd) : List (Fin sys.nd) :=
  (List.finRange sys.nd).filter
    (fun e => decide (sys.dof_link e = sys.dof_link d ∧ sys.dof_slot e < sys.dof_slot d))

/-- dynamics.py lines 68-72: the single-axis joint transform of one stacked
dof: rotation about the axis by `q` (built by `rfn`, standing for
`normalize(quat_rot_axis(ang, q))`), translation along the axis by `q`. -/
def jlocalOf (rfn : V3 → ℚ → Quat) (sys : System) (q : Fin sys.nd → ℚ)
    (e : Fin sys.nd) : Transform :=
  ⟨V3.smul (q e) (sys.dof_motion e).vel, rfn (sys.dof_motion e).ang (q e)⟩

/-- dynamics.py lines 81-84: the partial joint transform accumulated over the
axes preceding dof `d` in its joint's stack (starting from the identity). -/
def jpriorOf (rfn : V3 → ℚ → Quat) (sys : System) (q : Fin sys.nd → ℚ)
    (d : Fin sys.nd) : Transform :=
  (priorList sys d).foldl (fun t e => Transform.do t (jlocalOf rfn sys q e)) Transform.zero

/-- dynamics.py lines 61-89 (`cdof_fn`): the local motion subspace of each dof.
FREE joints pass their raw 6-dof motion through; a stacked dof's subspace is
re-expressed through the inverse of the partial transform of the preceding
axes (`j.inv().vmap().do(jd_stack.take(i, axis=1))`). -/
def cdofLocalOf (rfn : V3 → ℚ → Quat) (sys : System) (q : Fin sys.nd → ℚ)
    (d : Fin sys.nd) : Motion :=
  match sys.link_types (sys.dof_link d) with
  | LinkType.free => sys.dof_motion d
  | LinkType.stacked _ =>
    Transform.doMotion (Transform.inv (jpriorOf rfn sys q d)) (sys.dof_motion d)

/-- dynamics.py lines 91-94: rotate each dof's angular subspace into its joint
frame's world orientation, then shift the reference point from the joint
location to the mechanism center of mass
(`Transform.create(pos=com - j.pos).take(sys.dof_link()).vmap().do(cdof)`). -/
def cdofOf (rfn : V3 → ℚ → Quat) (sys : System) (q : Fin sys.nd → ℚ)
    (x : Fin sys.nl → Transform) (d : Fin sys.nd) : Motion :=
  let jl := jOf sys x (sys.dof_link d)
  let c0 := cdofLocalOf rfn sys q d
  Transform.doMotion ⟨V3.sub (comOf sys x) jl.pos, Quat.one⟩
    ⟨rotate c0.ang jl.rot, c0.vel⟩

/-- dynamics.py line 95: `cdof_qd = jax.vmap(lambda x, y: x * y)(cdof, qd)`. -/
def cdofqdOf (rfn : V3 → ℚ → Quat) (sys : System) (q qd : Fin sys.nd → ℚ)
    (x : Fin sys.nl → Transform) (d : Fin sys.nd) : Motion :=
  Motion.smul (qd d) (cdofOf rfn sys q x d)

/-- The dofs driving link `l` (the fibers of the dof-to-link map), used by the
scatter-add `index_sum` of the tree scans. -/
def dofList (sys : System) (l : Fin sys.nl) : List (Fin sys.nd) :=
  (List.finRange sys.nd).filter (fun d => decide (sys.dof_link d = l))

/-- Modelled from the spec: the forward (root-to-leaf) tree scan of
`scan.tree` (scan.py, absent from src/; spec 4.2): each link's value is the
combining function applied to its parent's value (the seed at the root) and
the link's own contributions.  Structural recursion on a fuel bounded by the
link count; `parent_lt` guarantees `fuel = nl` always suffices. -/
def treeFwdScanAux (sys : System) (seed : Motion) (c : Fin sys.nd → Motion) :
    ℕ → Fin sys.nl → Motion
  | 0, _ => Motion.zero
  | fuel + 1, l =>
    Motion.add
      (match sys.link_parents l with
       | none => seed
       | some p => treeFwdScanAux sys seed c fuel p)
      (Motion.lsum c (dofList sys l))

/-- The forward tree scan at full fuel (see `treeFwdScanAux`). -/
def treeFwdScan (sys : System) (seed : Motion) (c : Fin sys.nd → Motion)
    (l : Fin sys.nl) : Motion :=
  treeFwdScanAux sys seed c sys.nl l

/-- dynamics.py lines 97-107 (`cd_fn`): forward scan accumulating link
center-of-mass velocity, `cd = cd[parent] + map-sum(cdof * qd)`, root seed
zero. -/
def cdOf (rfn : V3 → ℚ → Quat) (sys : System) (q qd : Fin sys.nd → ℚ)
    (x : Fin sys.nl → Transform) : Fin sys.nl → Motion :=
  treeFwdScan sys Motion.zero (cdofqdOf rfn sys q qd x)

/-- dynamics.py line 133: `cd_p = cd.concatenate(Motion.zero(shape=(1,))).take(pidx)` -
the velocity fed to `cdofd_fn` for each link: its own velocity for FREE links,
its parent's velocity otherwise, zero for the root. -/
def cdpOf (rfn : V3 → ℚ → Quat) (sys : System) (q qd : Fin sys.nd → ℚ)
    (x : Fin sys.nl → Transform) (l : Fin sys.nl) : Motion :=
  if h : pidxOf sys l < sys.nl then cdOf rfn sys q qd x ⟨pidxOf sys l, h⟩
  else Motion.zero

/-- The first three (positional) dofs of a FREE link `l`. -/
def freeList (sys : System) (l : Fin sys.nl) : List (Fin sys.nd) :=
  (List.finRange sys.nd).filter
    (fun e => decide (sys.dof_link e = l ∧ sys.dof_slot e < 3))

/-- dynamics.py lines 110-134 (`cdofd_fn`): the velocity of each dof's motion
subspace vector.  FREE links: the cross product of the sum of the first three
dofs' velocity-weighted subspaces with each subspace, with the first three
dofs' rates zeroed.  STACKED joints: the velocity fed in (`cd_p`) plus the
running sum of the preceding axes' velocity-weighted subspaces, crossed with
the axis's own subspace. -/
def cdofdOf (rfn : V3 → ℚ → Quat) (sys : System) (q qd : Fin sys.nd → ℚ)
    (x : Fin sys.nl → Transform) (d : Fin sys.nd) : Motion :=
  match sys.link_types (sys.dof_link d) with
  | LinkType.free =>
    if sys.dof_slot d < 3 then Motion.zero
    else
      Motion.cross
        (Motion.lsum (cdofqdOf rfn sys q qd x) (freeList sys (sys.dof_link d)))
        (cdofOf rfn sys q x d)
  | LinkType.stacked _ =>
    Motion.cross
      (Motion.add (cdpOf rfn sys q qd x (sys.dof_link d))
        (Motion.lsum (cdofqdOf rfn sys q qd x) (priorList sys d)))
      (cdofOf rfn sys q x d)

/-- dynamics.py lines 26-136 (`transform_com`): returns
`(com, cinr, cd, cdof, cdofd)`. -/
def transform_com (rfn : V3 → ℚ → Quat) (sys : System) (q qd : Fin sys.nd → ℚ)
    (x : Fin sys.nl → Transform) :
    V3 × (Fin sys.nl → Inertia) × (Fin sys.nl → Motion) ×
      (Fin sys.nd → Motion) × (Fin sys.nd → Motion) :=
  (comOf sys x, cinrOf sys x, cdOf rfn sys q qd x, cdofOf rfn sys q x,
    cdofdOf rfn sys q qd x)

/-- dynamics.py lines 165-174 (`cdd_fn`): forward scan accumulating link
center-of-mass acceleration, `cdd = cdd[parent] + map-sum(cdofd * qd)`, root
seed `Motion.create(vel=-sys.gravity)`. -/
def cddOf (sys : System) (qd : Fin sys.nd → ℚ) (cdofd : Fin sys.nd → Motion) :
    Fin sys.nl → Motion :=
  treeFwdScan sys ⟨V3.zero, V3.neg sys.gravity⟩ (fun d => Motion.smul (qd d) (cdofd d))

/-- dynamics.py lines 176-180: `cfrc_flat = cinr * cdd + cd x (cinr * cd)` - the
per-link Newton-Euler spatial force. -/
def frcOf (sys : System) (cinr : Fin sys.nl → Inertia) (cdd cd : Fin sys.nl → Motion)
    (l : Fin sys.nl) : Force :=
  Force.add ((cinr l).mul (cdd l)) (Motion.crossF (cd l) ((cinr l).mul (cd l)))

/-- The children of link `l`. -/
def childList (sys : System) (l : Fin sys.nl) : List (Fin sys.nl) :=
  (List.finRange sys.nl).filter (fun c => decide (sys.link_parents c = some l))

/-- Modelled from the spec: the backward (leaf-to-root) tree scan of
`scan.tree(..., reverse=True)` (scan.py, absent from src/; spec 4.2): each
link's value is its own contribution plus the combined values of its children.
Structural recursion on a fuel bounded by the link count. -/
def cfrcScanAux (sys : System) (f : Fin sys.nl → Force) :
    ℕ → Fin sys.nl → Force
  | 0, _ => Force.zero
  | fuel + 1, l =>
    Force.add (f l) (Force.lsum (fun c => cfrcScanAux sys f fuel c) (childList sys l))

/-- dynamics.py lines 182-188 (`cfrc_fn`): backward scan accumulating link
center-of-mass forces. -/
def cfrcScan (sys : System) (f : Fin sys.nl → Force) (l : Fin sys.nl) : Force :=
  cfrcScanAux sys f sys.nl l

/-- dynamics.py lines 139-193 (`inverse`): recursive Newton-Euler inverse
dynamics; `tau = cdof * cfrc[dof_link]` (line 191). -/
def inverse (sys : System) (qd : Fin sys.nd → ℚ) (cinr : Fin sys.nl → Inertia)
    (cd : Fin sys.nl → Motion) (cdof cdofd : Fin sys.nd → Motion)
    (d : Fin sys.nd) : ℚ :=
  Motion.dot (cdof d)
    (cfrcScan sys (frcOf sys cinr (cddOf sys qd cdofd) cd) (sys.dof_link d))

/-- dynamics.py lines 196-207 (`_passive`): per-dof spring/damper force.
`stiffness_fn` zeroes the stiffness term for joint types in 'fb' (free and
ball; ball joints do not occur in the spec's data model, spec section 3), then
`frc -= sys.dof.damping * qd`. -/
def _passive (sys : System) (q qd : Fin sys.nd → ℚ) (d : Fin sys.nd) : ℚ :=
  (match sys.link_types (sys.dof_link d) with
   | LinkType.free => 0
   | LinkType.stacked _ => -q d * sys.stiffness d)
  - sys.damping d * qd d

/-- dynamics.py lines 210-244 (`forward`): nets passive force, bias force and
supplied actuation, `qfrc = qfrc_passive - qfrc_bias + tau`. -/
def forward (sys : System) (q qd : Fin sys.nd → ℚ) (cinr : Fin sys.nl → Inertia)
    (cd : Fin sys.nl → Motion) (cdof cdofd : Fin sys.nd → Motion)
    (tau : Fin sys.nd → ℚ) (d : Fin sys.nd) : ℚ :=
  _passive sys q qd d - inverse sys qd cinr cd cdof cdofd d + tau d

/-- A concrete mechanism used by witnesses and counterexamples: a two-link
chain of single-axis (STACKED(1)) revolute joints, link 1 the child of link 0,
all poses the identity, unit masses, zero gravity. -/
def sysW2 : System where
  nl := 2
  nd := 2
  link_types := fun _ => LinkType.stacked 1
  link_parents := fun l => if l.val = 0 then none else some ⟨0, Nat.zero_lt_two⟩
  parent_lt := by decide
  link_transform := fun _ => Transform.zero
  link_joint := fun _ => Transform.zero
  inertia := fun _ => ⟨Transform.zero, ⟨⟨1, 0, 0⟩, ⟨0, 1, 0⟩, ⟨0, 0, 1⟩⟩, 1⟩
  dof_link := fun d => d
  dof_slot := fun _ => 0
  dof_motion := fun d => if d.val = 0 then ⟨⟨0, 0, 1⟩, V3.zero⟩ else ⟨⟨0, 1, 0⟩, V3.zero⟩
  stiffness := fun _ => 0
  damping := fun _ => 0
  gravity := V3.zero

/-- Concrete stand-in for the axis-angle rotation construction: the identity
rotation (any value is legitimate here since `rfn` is a free parameter of the
model). -/
def rfnW : V3 → ℚ → Quat := fun _ _ => Quat.one

/-- Concrete joint positions for `sysW2`. -/
def qW2 : Fin sysW2.nd → ℚ := fun _ => 0

/-- Concrete joint velocities for `sysW2`: the root joint is moving. -/
def qdW2 : Fin sysW2.nd → ℚ := fun d => if d.val = 0 then 1 else 0

/-- Concrete world link poses for `sysW2`. -/
def xW2 : Fin sysW2.nl → Transform := fun _ => Transform.zero

/-- The dof of the child joint of `sysW2`. -/
def d1W : Fin sysW2.nd := ⟨1, by decide⟩

/-- The dof of the root joint of `sysW2`. -/
def d0W : Fin sysW2.nd := ⟨0, by decide⟩

theorem V3.zero_add_v (a : V3) : V3.add V3.zero a = a := by
  cases a; simp [V3.add, V3.zero]

theorem V3.add_zero_v (a : V3) : V3.add a V3.zero = a := by
  cases a; simp [V3.add, V3.zero]

theorem V3.zero_cross_v (v : V3) : V3.cross V3.zero v = V3.zero := by
  simp [V3.cross, V3.zero]

theorem V3.cross_zero_v (v : V3) : V3.cross v V3.zero = V3.zero := by
  simp [V3.cross, V3.zero]

theorem V3.sub_zero_zero : V3.sub V3.zero V3.zero = V3.zero := by
  simp [V3.sub, V3.zero]

theorem rotate_one (v : V3) : rotate v Quat.one = v := by
  cases v
  simp [rotate, Quat.one, V3.cross, V3.smul, V3.add]

theorem rotate_zero_v (q : Quat) : rotate V3.zero q = V3.zero := by
  simp [rotate, V3.zero, V3.cross, V3.smul, V3.add]

theorem quatMul_one_left (a : Quat) : quatMul Quat.one a = a := by
  cases a; simp [quatMul, Quat.one]

theorem quatMul_one_right (a : Quat) : quatMul a Quat.one = a := by
  cases a; simp [quatMul, Quat.one]

theorem quatConj_one : quatConj Quat.one = Quat.one := by
  simp [quatConj, Quat.one]

theorem Transform.do_zero_left (t : Transform) : Transform.do Transform.zero t = t := by
  cases t
  simp [Transform.do, Transform.zero, rotate_one, quatMul_one_left, V3.zero_add_v]

theorem Transform.do_zero_right (t : Transform) : Transform.do t Transform.zero = t := by
  cases t
  simp [Transform.do, Transform.zero, rotate_zero_v, quatMul_one_right, V3.add_zero_v]

theorem Transform.inv_zero : Transform.inv Transform.zero = Transform.zero := by
  simp [Transform.inv, Transform.zero, quatConj_one, rotate_zero_v, rotate_one,
    V3.neg, V3.zero]

theorem Transform.doMotion_zero (m : Motion) : Transform.doMotion Transform.zero m = m := by
  cases m
  simp [Transform.doMotion, Transform.zero, rotate_one, V3.zero_cross_v, V3.add_zero_v]

theorem Motion.zero_cross_m (b : Motion) : Motion.cross Motion.zero b = Motion.zero := by
  simp [Motion.cross, Motion.zero, V3.zero_cross_v, V3.add_zero_v]

theorem Motion.add_zero_m (m : Motion) : Motion.add m Motion.zero = m := by
  cases m; simp [Motion.add, Motion.zero, V3.add_zero_v]

theorem Motion.zero_add_m (m : Motion) : Motion.add Motion.zero m = m := by
  cases m; simp [Motion.add, Motion.zero, V3.zero_add_v]

theorem Force.zero_add_f (f : Force) : Force.add Force.zero f = f := by
  cases f; simp [Force.add, Force.zero, V3.zero_add_v]

theorem Motion.smul_zero_left (m : Motion) : Motion.smul 0 m = Motion.zero := by
  simp [Motion.smul, V3.smul, Motion.zero, V3.zero]

theorem Motion.lsum_zero_m (f : α → Motion) (L : List α) (hf : ∀ a, f a = Motion.zero) :
    Motion.lsum f L = Motion.zero := by
  induction L with
  | nil => rfl
  | cons a t ih =>
    show Motion.add (f a) (Motion.lsum f t) = Motion.zero
    rw [hf a, ih, Motion.zero_add_m]

theorem Force.lsum_zero_f (f : α → Force) (L : List α) (hf : ∀ a, f a = Force.zero) :
    Force.lsum f L = Force.zero := by
  induction L with
  | nil => rfl
  | cons a t ih =>
    show Force.add (f a) (Force.lsum f t) = Force.zero
    rw [hf a, ih, Force.zero_add_f]

theorem Inertia.mul_zero_motion (it : Inertia) : Inertia.mul it Motion.zero = Force.zero := by
  simp [Inertia.mul, Motion.zero, M3.mulVec, V3.dot, V3.cross, V3.smul, V3.add,
    V3.sub, V3.zero, Force.zero]

theorem Motion.crossF_zero_left (f : Force) : Motion.crossF Motion.zero f = Force.zero := by
  simp [Motion.crossF, Motion.zero, V3.cross, V3.zero, V3.add, Force.zero]

theorem Motion.dot_zero_force (m : Motion) : Motion.dot m Force.zero = 0 := by
  simp [Motion.dot, V3.dot, Force.zero, V3.zero]

/-- Fuel irrelevance for the forward tree scan: any fuel larger than the link
index computes the same value ( `parent_lt` makes parent chains strictly
decreasing). -/
theorem treeFwdScanAux_irrel (sys : System) (seed : Motion) (c : Fin sys.nd → Motion) :
    ∀ f g : ℕ, ∀ l : Fin sys.nl, l.val < f → l.val < g →
      treeFwdScanAux sys seed c f l = treeFwdScanAux sys seed c g l := by
  intro f
  induction f with
  | zero => intro g l hf hg; omega
  | succ f ih =>
    intro g l hf hg
    cases g with
    | zero => omega
    | succ g =>
      simp only [treeFwdScanAux]
      congr 1
      cases hp : sys.link_parents l with
      | none => rfl
      | some p =>
        have hpl := sys.parent_lt l p hp
        exact ih g p (by omega) (by omega)

/-- The defining equation of the forward tree scan: a link's value is the
parent's value (the seed at the root) plus the link's own contributions. -/
theorem treeFwdScan_eq (sys : System) (seed : Motion) (c : Fin sys.nd → Motion)
    (l : Fin sys.nl) :
    treeFwdScan sys seed c l =
      Motion.add
        (match sys.link_parents l with
         | none => seed
         | some p => treeFwdScan sys seed c p)
        (Motion.lsum c (dofList sys l)) := by
  have h1 : treeFwdScan sys seed c l = treeFwdScanAux sys seed c (l.val + 1) l :=
    treeFwdScanAux_irrel sys seed c sys.nl (l.val + 1) l l.isLt (by omega)
  rw [h1]
  simp only [treeFwdScanAux]
  congr 1
  cases hp : sys.link_parents l with
  | none => rfl
  | some p =>
    have hpl := sys.parent_lt l p hp
    exact treeFwdScanAux_irrel sys seed c l.val sys.nl p (by omega) p.isLt

/-- The forward tree scan of an all-zero contribution with a zero seed is
identically zero. -/
theorem treeFwdScanAux_zero (sys : System) (c : Fin sys.nd → Motion)
    (hc : ∀ d, c d = Motion.zero) :
    ∀ fuel : ℕ, ∀ l : Fin sys.nl, treeFwdScanAux sys Motion.zero c fuel l = Motion.zero := by
  intro fuel
  induction fuel with
  | zero => intro l; rfl
  | succ fuel ih =>
    intro l
    show Motion.add _ _ = Motion.zero
    rw [Motion.lsum_zero_m c _ hc]
    cases hp : sys.link_parents l with
    | none => simp only [Motion.zero_add_m]
    | some p => simp only [ih p, Motion.zero_add_m]

/-- The backward tree scan of an all-zero per-link force is identically zero. -/
theorem cfrcScanAux_zero (sys : System) (f : Fin sys.nl → Force)
    (hf : ∀ l, f l = Force.zero) :
    ∀ fuel : ℕ, ∀ l : Fin sys.nl, cfrcScanAux sys f fuel l = Force.zero := by
  intro fuel
  induction fuel with
  | zero => intro l; rfl
  | succ fuel ih =>
    intro l
    show Force.add (f l) _ = Force.zero
    rw [hf l, Force.lsum_zero_f _ _ (fun cc => ih cc), Force.zero_add_f]

/-- The backward tree scan at full fuel of an all-zero per-link force is zero. -/
theorem cfrcScan_zero (sys : System) (f : Fin sys.nl → Force)
    (hf : ∀ l, f l = Force.zero) (l : Fin sys.nl) : cfrcScan sys f l = Force.zero :=
  cfrcScanAux_zero sys f hf sys.nl l

/-- Claim C1: for every mechanism and per-link world pose input `x`, the `com`
returned by `transform_com` is the total-mass-weighted average of the links'
world center-of-mass positions: com = (sum of mass_i * worldpos_i) / (sum of
mass_i), for any pose (`worldpos_i` is the world position of link i's inertial
frame, `xi.pos`). -/
theorem claim_C1_com_weighted_average (rfn : V3 → ℚ → Quat) (sys : System)
    (q qd : Fin sys.nd → ℚ) (x : Fin sys.nl → Transform) :
    (transform_com rfn sys q qd x).1 =
      V3.div
        (V3.lsum (fun l => V3.smul (sys.inertia l).mass (xiOf sys x l).pos)
          (List.finRange sys.nl))
        (ratLsum (fun l => (sys.inertia l).mass) (List.finRange sys.nl)) := rfl

/-- Claim C2: `forward` returns exactly
`_passive(sys, q, qd) - inverse(sys, qd, cinr, cd, cdof, cdofd) + tau`:
a net generalized force, with no mass-matrix assembly or linear solve - the
output is not an acceleration. -/
theorem claim_C2_forward_net_force (sys : System) (q qd : Fin sys.nd → ℚ)
    (cinr : Fin sys.nl → Inertia) (cd : Fin sys.nl → Motion)
    (cdof cdofd : Fin sys.nd → Motion) (tau : Fin sys.nd → ℚ) (d : Fin sys.nd) :
    forward sys q qd cinr cd cdof cdofd tau d =
      _passive sys q qd d - inverse sys qd cinr cd cdof cdofd d + tau d := rfl

/-- Claim C3: the `cinr` returned by `transform_com` is the link's rigid
inertia with its reference point translated by (link CoM position - com) and
no rotation applied: the same result is obtained whatever rotation `qrot` is
attached to the translating transform, so the frame stays aligned with the
link's local axes. -/
theorem claim_C3_cinr_pure_translation (rfn : V3 → ℚ → Quat) (sys : System)
    (q qd : Fin sys.nd → ℚ) (x : Fin sys.nl → Transform) (l : Fin sys.nl)
    (qrot : Quat) :
    (transform_com rfn sys q qd x).2.1 l =
      Transform.doInertia
        ⟨V3.sub (xiOf sys x l).pos (comOf sys x), qrot⟩
        (sys.inertia l) := rfl

/-- Claim C5: in `inverse`, the forward tree scan computes each link's spatial
acceleration as its parent's accumulated acceleration plus the indexed-sum
over that link's dofs of `cdofd_i * qd_i`; the root's parent seed is the
spatial motion with angular component zero and linear component `-gravity`. -/
theorem claim_C5_cdd_forward_scan (sys : System) (qd : Fin sys.nd → ℚ)
    (cdofd : Fin sys.nd → Motion) (l : Fin sys.nl) :
    cddOf sys qd cdofd l =
      Motion.add
        (match sys.link_parents l with
         | none => Motion.mk V3.zero (V3.neg sys.gravity)
         | some p => cddOf sys qd cdofd p)
        (Motion.lsum (fun d => Motion.smul (qd d) (cdofd d)) (dofList sys l)) :=
  treeFwdScan_eq sys ⟨V3.zero, V3.neg sys.gravity⟩ (fun d => Motion.smul (qd d) (cdofd d)) l

/-- Claim C6: with a zero gravity vector and `qd = 0`, and with `cinr`, `cd`,
`cdof`, `cdofd` taken from `transform_com` at that `qd` (so `cd = 0`),
`inverse` returns exactly zero bias force at every dof. -/
theorem claim_C6_inverse_zero (rfn : V3 → ℚ → Quat) (sys : System)
    (q : Fin sys.nd → ℚ) (x : Fin sys.nl → Transform)
    (hg : sys.gravity = V3.zero) (d : Fin sys.nd) :
    inverse sys (fun _ => 0)
      ((transform_com rfn sys q (fun _ => 0) x).2.1)
      ((transform_com rfn sys q (fun _ => 0) x).2.2.1)
      ((transform_com rfn sys q (fun _ => 0) x).2.2.2.1)
      ((transform_com rfn sys q (fun _ => 0) x).2.2.2.2) d = 0 := by
  have hcd : ∀ l, (transform_com rfn sys q (fun _ => 0) x).2.2.1 l = Motion.zero := by
    intro l
    exact treeFwdScanAux_zero sys _ (fun e => Motion.smul_zero_left _) sys.nl l
  have hcdd : ∀ l,
      cddOf sys (fun _ => 0) ((transform_com rfn sys q (fun _ => 0) x).2.2.2.2) l
        = Motion.zero := by
    intro l
    show treeFwdScanAux sys ⟨V3.zero, V3.neg sys.gravity⟩ _ sys.nl l = Motion.zero
    rw [hg]
    have hseed : (⟨V3.zero, V3.neg V3.zero⟩ : Motion) = Motion.zero := by
      simp [Motion.zero, V3.neg, V3.zero]
    rw [hseed]
    exact treeFwdScanAux_zero sys _ (fun e => Motion.smul_zero_left _) sys.nl l
  have hfrc : ∀ l,
      frcOf sys ((transform_com rfn sys q (fun _ => 0) x).2.1)
        (cddOf sys (fun _ => 0) ((transform_com rfn sys q (fun _ => 0) x).2.2.2.2))
        ((transform_com rfn sys q (fun _ => 0) x).2.2.1) l = Force.zero := by
    intro l
    unfold frcOf
    rw [hcdd l, hcd l, Inertia.mul_zero_motion, Motion.crossF_zero_left,
      Force.zero_add_f]
  show Motion.dot _ (cfrcScan sys _ (sys.dof_link d)) = 0
  rw [cfrcScan_zero sys _ hfrc (sys.dof_link d)]
  exact Motion.dot_zero_force _

/-- Witness for claim C6 at the concrete zero-gravity mechanism `sysW2`. -/
theorem claim_C6_witness :
    inverse sysW2 (fun _ => 0)
      ((transform_com rfnW sysW2 qW2 (fun _ => 0) xW2).2.1)
      ((transform_com rfnW sysW2 qW2 (fun _ => 0) xW2).2.2.1)
      ((transform_com rfnW sysW2 qW2 (fun _ => 0) xW2).2.2.2.1)
      ((transform_com rfnW sysW2 qW2 (fun _ => 0) xW2).2.2.2.2) d0W = 0 :=
  claim_C6_inverse_zero rfnW sysW2 qW2 xW2 rfl d0W

/-- Claim C7: per dof the passive force is `-stiffness * q - damping * qd`,
except that for dofs of FREE joints the stiffness term is forced to zero while
the damping term still applies (ball joints, the other exempt type in the
source's 'fb' test, do not occur in the spec's joint-type domain). -/
theorem claim_C7_passive_spring_damper (sys : System) (q qd : Fin sys.nd → ℚ)
    (d : Fin sys.nd) :
    _passive sys q qd d =
      (if sys.link_types (sys.dof_link d) = LinkType.free then 0
       else -sys.stiffness d * q d) - sys.damping d * qd d := by
  unfold _passive
  cases h : sys.link_types (sys.dof_link d) with
  | free => simp [h]
  | stacked n =>
    simp only [h]
    rw [if_neg (fun hh => LinkType.noConfusion hh)]
    ring

/-- Claim C8: the passive force is homogeneous of degree one in (q, qd):
`_passive(sys, 2q, 2qd) = 2 * _passive(sys, q, qd)` for every mechanism. -/
theorem claim_C8_passive_homogeneous (sys : System) (q qd : Fin sys.nd → ℚ)
    (d : Fin sys.nd) :
    _passive sys (fun e => 2 * q e) (fun e => 2 * qd e) d =
      2 * _passive sys q qd d := by
  unfold _passive
  cases sys.link_types (sys.dof_link d) <;> ring

/-- Claim C9: each dof's generalized bias force returned by `inverse` is the
spatial dot product of that dof's `cdof` motion-subspace vector with the
backward-scan-accumulated force (`cfrcScan`) of the link the dof drives,
per the dof-to-link map. -/
theorem claim_C9_tau_dot_product (sys : System) (qd : Fin sys.nd → ℚ)
    (cinr : Fin sys.nl → Inertia) (cd : Fin sys.nl → Motion)
    (cdof cdofd : Fin sys.nd → Motion) (d : Fin sys.nd) :
    inverse sys qd cinr cd cdof cdofd d =
      Motion.dot (cdof d)
        (cfrcScan sys (frcOf sys cinr (cddOf sys qd cdofd) cd) (sys.dof_link d)) := rfl

/-- Claim C10: in `transform_com` the joint frame of link `l` is anchored at
the parent link's world pose - composed with the link's transform and joint
offsets, the root's absent parent replaced by the zero/identity pose - except
for FREE-typed links, which are anchored at their own world pose. -/
theorem claim_C10_joint_frame_anchor (sys : System) (x : Fin sys.nl → Transform)
    (l : Fin sys.nl) :
    jOf sys x l =
      Transform.do
        (Transform.do
          (if sys.link_types l = LinkType.free then x l
           else
             match sys.link_parents l with
             | some p => x p
             | none => Transform.zero)
          (sys.link_transform l))
        (sys.link_joint l) := by
  unfold jOf pidxOf xpadOf
  cases h : sys.link_types l with
  | free =>
    rw [dif_pos l.isLt, if_pos rfl]
  | stacked n =>
    have hne : ¬(LinkType.stacked n = LinkType.free) := fun hh => by cases hh
    rw [if_neg hne]
    cases hp : sys.link_parents l with
    | none => rw [dif_neg (Nat.lt_irrefl sys.nl)]
    | some p => rw [dif_pos p.isLt]

/-- On `sysW2` the link and joint offsets are identities, so each joint frame
is exactly its padded anchor pose. -/
theorem sysW2_jOf (l : Fin sysW2.nl) :
    jOf sysW2 xW2 l = xpadOf sysW2 xW2 (pidxOf sysW2 l) := by
  show Transform.do
      (Transform.do (xpadOf sysW2 xW2 (pidxOf sysW2 l)) (sysW2.link_transform l))
      (sysW2.link_joint l) = xpadOf sysW2 xW2 (pidxOf sysW2 l)
  rw [show sysW2.link_transform l = Transform.zero from rfl,
    show sysW2.link_joint l = Transform.zero from rfl,
    Transform.do_zero_right, Transform.do_zero_right]

/-- On `sysW2` every joint frame is the identity pose. -/
theorem sysW2_jOf_zero (l : Fin sysW2.nl) : jOf sysW2 xW2 l = Transform.zero := by
  rw [sysW2_jOf]
  fin_cases l <;> rfl

/-- On `sysW2` every link's inertial world pose is the identity pose. -/
theorem sysW2_xi_zero (l : Fin sysW2.nl) : xiOf sysW2 xW2 l = Transform.zero := by
  show Transform.do (xW2 l) (sysW2.inertia l).transform = Transform.zero
  rw [show (sysW2.inertia l).transform = Transform.zero from rfl,
    Transform.do_zero_right]
  rfl

/-- On `sysW2` the center of mass is at the origin. -/
theorem sysW2_com_zero : comOf sysW2 xW2 = V3.zero := by
  unfold comOf
  rw [show List.finRange sysW2.nl = [(⟨0, by decide⟩ : Fin sysW2.nl), ⟨1, by decide⟩]
    from by decide]
  norm_num [V3.lsum, ratLsum, sysW2_xi_zero, V3.smul, V3.add, V3.zero, V3.div,
    Transform.zero, sysW2]

/-- On `sysW2` every joint is STACKED(1), so no dof has predecessors in its
stack. -/
theorem sysW2_prior_nil : ∀ d : Fin sysW2.nd, priorList sysW2 d = [] := by decide

/-- On `sysW2` the local subspace of each dof is its raw axis motion. -/
theorem sysW2_cdofLocal (d : Fin sysW2.nd) :
    cdofLocalOf rfnW sysW2 qW2 d = sysW2.dof_motion d := by
  show Transform.doMotion (Transform.inv (jpriorOf rfnW sysW2 qW2 d))
      (sysW2.dof_motion d) = sysW2.dof_motion d
  have hjp : jpriorOf rfnW sysW2 qW2 d = Transform.zero := by
    unfold jpriorOf
    rw [sysW2_prior_nil d]
    rfl
  rw [hjp, Transform.inv_zero, Transform.doMotion_zero]

/-- On `sysW2` the com-frame subspace of each dof equals its raw axis motion. -/
theorem sysW2_cdof (d : Fin sysW2.nd) :
    cdofOf rfnW sysW2 qW2 xW2 d = sysW2.dof_motion d := by
  show Transform.doMotion
      ⟨V3.sub (comOf sysW2 xW2) (jOf sysW2 xW2 (sysW2.dof_link d)).pos, Quat.one⟩
      ⟨rotate (cdofLocalOf rfnW sysW2 qW2 d).ang (jOf sysW2 xW2 (sysW2.dof_link d)).rot,
        (cdofLocalOf rfnW sysW2 qW2 d).vel⟩ = sysW2.dof_motion d
  rw [sysW2_jOf_zero, sysW2_com_zero, sysW2_cdofLocal,
    show Transform.zero.pos = V3.zero from rfl,
    show Transform.zero.rot = Quat.one from rfl,
    V3.sub_zero_zero, rotate_one,
    show (⟨V3.zero, Quat.one⟩ : Transform) = Transform.zero from rfl,
    Transform.doMotion_zero]

/-- On `sysW2` the root link's accumulated com-frame velocity is the root
axis spun at unit rate. -/
theorem sysW2_cd_root :
    cdOf rfnW sysW2 qW2 qdW2 xW2 ⟨0, by decide⟩ = ⟨⟨0, 0, 1⟩, V3.zero⟩ := by
  show Motion.add Motion.zero
      (Motion.lsum (cdofqdOf rfnW sysW2 qW2 qdW2 xW2) (dofList sysW2 ⟨0, by decide⟩))
      = (⟨⟨0, 0, 1⟩, V3.zero⟩ : Motion)
  rw [Motion.zero_add_m,
    show dofList sysW2 ⟨0, by decide⟩ = [(⟨0, by decide⟩ : Fin sysW2.nd)] from by decide]
  show Motion.add (cdofqdOf rfnW sysW2 qW2 qdW2 xW2 ⟨0, by decide⟩) Motion.zero = _
  rw [Motion.add_zero_m]
  show Motion.smul (qdW2 ⟨0, by decide⟩) (cdofOf rfnW sysW2 qW2 xW2 ⟨0, by decide⟩) = _
  rw [sysW2_cdof, show qdW2 ⟨0, by decide⟩ = 1 from rfl,
    show sysW2.dof_motion ⟨0, by decide⟩ = (⟨⟨0, 0, 1⟩, V3.zero⟩ : Motion) from rfl]
  norm_num [Motion.smul, V3.smul, V3.zero]

/-- On `sysW2` the child joint's subspace rate is the cross product of the
root link's velocity with the child axis - a nonzero motion. -/
theorem sysW2_cdofd_child :
    cdofdOf rfnW sysW2 qW2 qdW2 xW2 d1W = ⟨⟨-1, 0, 0⟩, V3.zero⟩ := by
  show Motion.cross
      (Motion.add (cdpOf rfnW sysW2 qW2 qdW2 xW2 (sysW2.dof_link d1W))
        (Motion.lsum (cdofqdOf rfnW sysW2 qW2 qdW2 xW2) (priorList sysW2 d1W)))
      (cdofOf rfnW sysW2 qW2 xW2 d1W) = (⟨⟨-1, 0, 0⟩, V3.zero⟩ : Motion)
  rw [sysW2_prior_nil d1W,
    show cdpOf rfnW sysW2 qW2 qdW2 xW2 (sysW2.dof_link d1W)
      = cdOf rfnW sysW2 qW2 qdW2 xW2 ⟨0, by decide⟩ from rfl,
    sysW2_cd_root, sysW2_cdof d1W,
    show sysW2.dof_motion d1W = (⟨⟨0, 1, 0⟩, V3.zero⟩ : Motion) from rfl,
    show Motion.lsum (cdofqdOf rfnW sysW2 qW2 qdW2 xW2) ([] : List (Fin sysW2.nd))
      = Motion.zero from rfl,
    Motion.add_zero_m]
  norm_num [Motion.cross, V3.cross, V3.add, V3.zero]

/-- Claim C4 (amended): for a STACKED(n) joint, the `cdofd` output of
`transform_com` at axis i is the spatial cross product of that axis's
effective velocity with its own subspace vector, where the effective velocity
is the parent link's accumulated com-frame velocity (`cd_p`, zero at the root)
plus the running sum of the previous axes' velocity-weighted subspace vectors
(cdof_j * qd_j for j < i). -/
theorem claim_C4_stacked_cdofd (rfn : V3 → ℚ → Quat) (sys : System)
    (q qd : Fin sys.nd → ℚ) (x : Fin sys.nl → Transform) (d : Fin sys.nd)
    (n : ℕ) (h : sys.link_types (sys.dof_link d) = LinkType.stacked n) :
    (transform_com rfn sys q qd x).2.2.2.2 d =
      Motion.cross
        (Motion.add (cdpOf rfn sys q qd x (sys.dof_link d))
          (Motion.lsum (cdofqdOf rfn sys q qd x) (priorList sys d)))
        (cdofOf rfn sys q x d) := by
  show cdofdOf rfn sys q qd x d = _
  unfold cdofdOf
  rw [h]

/-- Witness for the amended claim C4 at the concrete chain `sysW2`, child dof
`d1W`. -/
theorem claim_C4_witness :
    (transform_com rfnW sysW2 qW2 qdW2 xW2).2.2.2.2 d1W =
      Motion.cross
        (Motion.add (cdpOf rfnW sysW2 qW2 qdW2 xW2 (sysW2.dof_link d1W))
          (Motion.lsum (cdofqdOf rfnW sysW2 qW2 qdW2 xW2) (priorList sysW2 d1W)))
        (cdofOf rfnW sysW2 qW2 xW2 d1W) :=
  claim_C4_stacked_cdofd rfnW sysW2 qW2 qdW2 xW2 d1W 1 rfl

/-- Counterexample to claim C4 as stated: with the effective velocity taken to
be only the running sum of the previous axes' velocity-weighted subspaces
(empty, hence zero, for the first axis of the child joint of `sysW2`), the
claimed value is zero, but `transform_com` returns the nonzero cross product
of the parent link's velocity with the axis subspace. -/
theorem claim_C4_counterexample :
    (transform_com rfnW sysW2 qW2 qdW2 xW2).2.2.2.2 d1W ≠
      Motion.cross
        (Motion.lsum (cdofqdOf rfnW sysW2 qW2 qdW2 xW2) (priorList sysW2 d1W))
        (cdofOf rfnW sysW2 qW2 xW2 d1W) := by
  intro heq
  rw [show (transform_com rfnW sysW2 qW2 qdW2 xW2).2.2.2.2
      = cdofdOf rfnW sysW2 qW2 qdW2 xW2 from rfl,
    sysW2_cdofd_child, sysW2_prior_nil d1W,
    show Motion.lsum (cdofqdOf rfnW sysW2 qW2 qdW2 xW2) ([] : List (Fin sysW2.nd))
      = Motion.zero from rfl,
    Motion.zero_cross_m] at heq
  exact absurd heq (by decide)
